import Mathlib

/-!
Verification of the arbiter storage-access library (arbiter.cpp, drivers/s3.cpp)
against its natural-language specification.  The C++ code is shallowly embedded:
strings are Lean `String`s (lists of characters), bytes are `Nat`s below 256,
`std::string::npos` results become `Option`, C++ exceptions become `Except`,
and the stateful retry / pagination loops become explicit recursion with the
interaction with the HTTP collaborator scripted as a function argument.
-/

set_option maxHeartbeats 1000000

namespace ArbiterSpec

/-! ### Path scheme parsing (arbiter.cpp: Arbiter::getType / Arbiter::stripType) -/

/-- The scheme delimiter, `const std::string delimiter("://")`. -/
def delimiter : String := "://"

/-- Boolean list-prefix test, mirroring how `std::string::find` matches the
needle at a candidate offset. -/
def isPre : List Char → List Char → Bool
  | [], _ => true
  | _ :: _, [] => false
  | p :: ps, c :: cs => if p = c then isPre ps cs else false

/-- Embedding of `std::string::find(pat)`: index of the first occurrence of
`pat`, `none` for `npos`. -/
def findSub (pat : List Char) : List Char → Option Nat
  | [] => if isPre pat [] then some 0 else none
  | c :: t => if isPre pat (c :: t) then some 0 else (findSub pat t).map (· + 1)

/-- Embedding of `Arbiter::getType` (arbiter.cpp:395-406). -/
def getType (path : String) : String :=
  match findSub delimiter.data path.data with
  | none => "file"
  | some pos => String.mk (path.data.take pos)

/-- Embedding of `Arbiter::stripType` (arbiter.cpp:408-419). -/
def stripType (raw : String) : String :=
  match findSub delimiter.data raw.data with
  | none => raw
  | some pos => String.mk (raw.data.drop (pos + delimiter.data.length))

/-! ### Base64 (s3.cpp: S3Driver::encodeBase64) -/

/-- The base64 alphabet `vals` from `encodeBase64`. -/
def base64Vals : List Char :=
  "ABCDEFGHIJKLMNOPQRSTUVWXYZabcdefghijklmnopqrstuvwxyz0123456789+/".data

/-- Table lookup `vals[i]` (all indices used are < 64). -/
def valAt (n : Nat) : Char := base64Vals.getD n '_'

/-- The main encoding loop of `encodeBase64`: each full 3-byte group produces
4 characters; `chunk >> k & 0x3F` is rendered as `chunk / 2^k % 64`. -/
def encodeGroups : List Nat → List Char
  | b0 :: b1 :: b2 :: rest =>
    let chunk := b0 * 65536 + b1 * 256 + b2
    valAt (chunk / 262144 % 64) :: valAt (chunk / 4096 % 64) ::
      valAt (chunk / 64 % 64) :: valAt (chunk % 64) :: encodeGroups rest
  | _ => []

/-- Embedding of `S3Driver::encodeBase64` (s3.cpp:387-434).  The input is
zero-padded to a multiple of 3; the first `fullSteps` groups are encoded by
the main loop.  For a trailing partial group the source computes
`num = (pos - end == 1 ? 2 : 3)`, but `pos == end` always holds when the main
loop exits, so `num` is always 3 and three characters are emitted.  Finally
the output is padded with `=` to a multiple of 4. -/
def encodeBase64 (data : List Nat) : List Char :=
  let fullSteps := data.length / 3
  let input := data ++ List.replicate ((3 - data.length % 3) % 3) 0
  let body := encodeGroups (input.take (fullSteps * 3))
  let tl :=
    if data.length % 3 = 0 then []
    else
      let rest := input.drop (fullSteps * 3)
      let b0 := rest.getD 0 0
      let b1 := rest.getD 1 0
      let b2 := rest.getD 2 0
      let chunk := b0 * 65536 + b1 * 256 + b2
      [valAt (chunk / 262144 % 64), valAt (chunk / 4096 % 64), valAt (chunk / 64 % 64)]
  let out := body ++ tl
  out ++ List.replicate ((4 - out.length % 4) % 4) '='

/-- Index of a character in the base64 alphabet. -/
def b64Index : List Char → Char → Option Nat
  | [], _ => none
  | x :: xs, c => if x = c then some 0 else (b64Index xs c).map (· + 1)

/-- Modelled from the spec: the body of a standard base64 decoder ("decoding
the output with a standard base64 decoder"), acting on the input with its `=`
padding already stripped.  A full 4-character group yields 3 bytes, a final
3-character group 2 bytes, a final 2-character group 1 byte; a lone trailing
character is invalid. -/
def decodeCore : List Char → Option (List Nat)
  | [] => some []
  | [_] => none
  | [c0, c1] => do
    let v0 ← b64Index base64Vals c0
    let v1 ← b64Index base64Vals c1
    pure [v0 * 4 + v1 / 16]
  | [c0, c1, c2] => do
    let v0 ← b64Index base64Vals c0
    let v1 ← b64Index base64Vals c1
    let v2 ← b64Index base64Vals c2
    pure [v0 * 4 + v1 / 16, v1 % 16 * 16 + v2 / 4]
  | c0 :: c1 :: c2 :: c3 :: rest => do
    let v0 ← b64Index base64Vals c0
    let v1 ← b64Index base64Vals c1
    let v2 ← b64Index base64Vals c2
    let v3 ← b64Index base64Vals c3
    let tl ← decodeCore rest
    pure ((v0 * 4 + v1 / 16) :: (v1 % 16 * 16 + v2 / 4) :: (v2 % 4 * 64 + v3) :: tl)

/-- Modelled from the spec: a standard base64 decoder; trailing `=` padding is
stripped and the remaining characters decoded group-wise. -/
def decodeBase64Std (s : List Char) : Option (List Nat) :=
  decodeCore (s.takeWhile (· ≠ '='))

/-! ### S3 path parsing (s3.cpp: split / getBucket / getObject, lines 30-52) -/

/-- Embedding of `std::string::find(c, pos)`: index of the first occurrence of
`c` at or after index `pos`; `none` for `npos`. -/
def findCharFrom : List Char → Char → Nat → Option Nat
  | [], _, _ => none
  | x :: xs, c, 0 => if x = c then some 0 else (findCharFrom xs c 0).map (· + 1)
  | _ :: xs, c, k + 1 => (findCharFrom xs c k).map (· + 1)

/-- Embedding of the anonymous-namespace `split` (s3.cpp:30-34).  The source
reads `fullPath.back()`, which is undefined behaviour on the empty string; the
outer `Option` is `none` exactly there.  The inner `Option` is the result of
`find("/")`, `none` for `npos`. -/
def split (fullPath : String) : Option (Option Nat) :=
  if fullPath.data = [] then none
  else
    let l := if fullPath.data.getLast? = some '/' then fullPath.data.dropLast
             else fullPath.data
    some (findCharFrom l '/' 0)

/-- Embedding of `getBucket` (s3.cpp:36-39): `fullPath.substr(0, split(fullPath))`;
`substr(0, npos)` is the whole string. -/
def getBucket (fullPath : String) : Option String :=
  (split fullPath).map fun
    | none => fullPath
    | some pos => String.mk (fullPath.data.take pos)

/-- Embedding of `getObject` (s3.cpp:41-52): empty unless `split` found a `/`,
else the substring after it. -/
def getObject (fullPath : String) : Option String :=
  (split fullPath).map fun
    | none => ""
    | some pos => String.mk (fullPath.data.drop (pos + 1))

/-! ### Retry executor (s3.cpp: S3Driver::httpExec, lines 217-245) -/

/-- Embedding of `HttpResponse` (status code plus body bytes). -/
structure HttpResponse where
  code : Nat
  data : List Nat
deriving DecidableEq

/-- The sleep-time update of `httpExec`: `if (sleepTime > maxSleepTime)
sleepTime = maxSleepTime` with `maxSleepTime = 4096` ms. -/
def capSleep (s : Nat) : Nat := if s > 4096 then 4096 else s

/-- Embedding of the do-while loop of `S3Driver::httpExec`.  `f` is the wrapped
operation, indexed by the invocation count so far; the fuel argument is
`tries - fails` (the loop condition `++fails < tries` is `1 < fuel`).  Returns
the final response, the number of invocations of `f`, and the list of sleep
durations performed (every non-200 response sleeps before the loop condition is
checked). -/
def httpExecAux (f : Nat → HttpResponse) : Nat → Nat → Nat → HttpResponse × Nat × List Nat
  | 0, i, sleep => (f i, 1, if (f i).code = 200 then [] else [sleep])
  | 1, i, sleep => (f i, 1, if (f i).code = 200 then [] else [sleep])
  | fuel + 2, i, sleep =>
    if (f i).code / 100 = 5 then
      ((httpExecAux f (fuel + 1) (i + 1) (capSleep (2 * sleep))).1,
       (httpExecAux f (fuel + 1) (i + 1) (capSleep (2 * sleep))).2.1 + 1,
       sleep :: (httpExecAux f (fuel + 1) (i + 1) (capSleep (2 * sleep))).2.2)
    else (f i, 1, if (f i).code = 200 then [] else [sleep])

/-- Embedding of `S3Driver::httpExec` with `fails` starting at 0 and
`sleepTime` at `baseSleepTime` (1 ms). -/
def httpExec (f : Nat → HttpResponse) (tries : Nat) : HttpResponse × Nat × List Nat :=
  httpExecAux f tries 0 1

/-- The attempt cap `httpAttempts` (s3.cpp:19). -/
def httpAttempts : Nat := 200

/-! ### Signing engine (s3.cpp: getStringToSign / headers, lines 271-359) -/

/-- Embedding of `S3Driver::getStringToSign` (s3.cpp:347-359). -/
def getStringToSign (command file httpDate contentType : String) : String :=
  command ++ "\n" ++ "\n" ++ contentType ++ "\n" ++ httpDate ++ "\n" ++ "/" ++ file

/-- Embedding of `S3Driver::getSignedEncodedString` (s3.cpp:331-345).  `sign`
stands for `signString`, the HMAC-SHA1 of its argument under the secret key —
an OpenSSL collaborator, passed as a function producing the raw digest bytes. -/
def getSignedEncodedString (sign : String → List Nat)
    (command file httpDate contentType : String) : String :=
  String.mk (encodeBase64 (sign (getStringToSign command file httpDate contentType)))

/-- Modelled from the spec: the default value of the `contentType` parameter of
`getSignedEncodedString` is declared in s3.hpp, which is not under src/; per
the spec the content-type signed for GET is empty. -/
def defaultContentType : String := ""

/-- Embedding of `S3Driver::httpGetHeaders` (s3.cpp:271-289); `access` is the
AWS access key, `httpDate` the wall-clock date string from `getHttpDate`. -/
def httpGetHeaders (sign : String → List Nat) (access httpDate filePath : String) :
    List String :=
  ["Date: " ++ httpDate,
   "Authorization: AWS " ++ access ++ ":" ++
     getSignedEncodedString sign "GET" filePath httpDate defaultContentType]

/-- Embedding of `S3Driver::httpPutHeaders` (s3.cpp:291-315). -/
def httpPutHeaders (sign : String → List Nat) (access httpDate filePath : String) :
    List String :=
  ["Content-Type: application/octet-stream",
   "Date: " ++ httpDate,
   "Authorization: AWS " ++ access ++ ":" ++
     getSignedEncodedString sign "PUT" filePath httpDate "application/octet-stream",
   "Transfer-Encoding:",
   "Expect:"]

/-! ### Bucket listing (s3.cpp: S3Driver::glob, lines 118-215)

The XML parser is an external collaborator (spec section 6), so a response is
modelled as its parse: an optional `ListBucketResult` node holding an optional
`IsTruncated` value and the chain of sibling nodes starting at the first
`Contents` node (the empty chain models a null `first_node("Contents")`),
each with an optional `Key` value. -/

/-- The error string `badResponse` (s3.cpp:56). -/
def badResponse : String := "Unexpected contents in AWS response"

/-- A node of the `Contents` sibling chain: its `Key` child value, if any. -/
structure ContentsNode where
  key : Option String
deriving DecidableEq

/-- The parsed `ListBucketResult` node. -/
structure ListBucketRes where
  isTruncated : Option String
  contents : List ContentsNode
deriving DecidableEq

/-- One scripted HTTP reply for a listing request: the status code and, for
XML bodies, the parsed `ListBucketResult` node if present. -/
structure PageReply where
  code : Nat
  lbr : Option ListBucketRes
deriving DecidableEq

/-- The query-string map of a listing request; the loop only ever stores the
keys `prefix` and `marker`. -/
structure Query where
  pre : Option String
  marker : Option String
deriving DecidableEq

/-- The `std::transform(..., tolower)` on the `IsTruncated` value. -/
def toLowerStr (s : String) : String := String.mk (s.data.map Char.toLower)

/-- The single-level filter of `glob` (s3.cpp:182): a key qualifies iff
`key.find('/', prefix.size()) == std::string::npos`. -/
def qualifies (pre key : String) : Bool := (findCharFrom key.data '/' pre.length).isNone

/-- The result entry pushed for a qualifying key (s3.cpp:184). -/
def keyUrl (bucket key : String) : String := "s3://" ++ bucket ++ "/" ++ key

/-- The marker value stored for a qualifying key when more pages follow
(s3.cpp:188-190): `(object.size() ? object + "/" : "") + key.substr(prefix.size())`,
in the in-bounds case `prefix.size() <= key.size()` where `substr` is defined.
The out-of-bounds case throws and is modelled in `contentsFold`. -/
def markerFor (object pre key : String) : String :=
  (if object.length ≠ 0 then object ++ "/" else "") ++ String.mk (key.data.drop pre.length)

/-- The exception raised by `std::string::substr(pos)` when `pos > size()` —
thrown by `key.substr(prefix.size())` at s3.cpp:190 when a qualifying key is
shorter than the prefix. -/
def outOfRange : String := "basic_string::substr: out_of_range"

/-- Embedding of the `for (; conNode; ...)` walk over the `Contents` chain
(s3.cpp:174-198), threading the query map and the results vector.  For a
qualifying key with more pages pending, `key.substr(prefix.size())` throws
`std::out_of_range` when `prefix.size() > key.size()` (a key shorter than the
prefix still qualifies, since `find` past the end is `npos`), aborting the
listing. -/
def contentsFold (bucket object pre : String) (more : Bool) :
    List ContentsNode → Query → List String → Except String (Query × List String)
  | [], q, rs => .ok (q, rs)
  | c :: cs, q, rs =>
    match c.key with
    | none => .error badResponse
    | some key =>
      if qualifies pre key then
        if more then
          if pre.length ≤ key.length then
            contentsFold bucket object pre more cs
              { q with marker := some (markerFor object pre key) }
              (rs ++ [keyUrl bucket key])
          else .error outOfRange
        else contentsFold bucket object pre more cs q (rs ++ [keyUrl bucket key])
      else contentsFold bucket object pre more cs q rs

/-- Embedding of one iteration body of the listing loop (s3.cpp:152-210):
non-200 throws; a missing `ListBucketResult` or missing `Contents` throws
`badResponse`; otherwise `more` is recomputed from `IsTruncated` (unchanged if
the node is absent) and the contents chain is folded. -/
def globStep (bucket object pre : String) (more : Bool) (q : Query) (rs : List String)
    (p : PageReply) : Except String (Bool × Query × List String) :=
  if p.code = 200 then
    match p.lbr with
    | some top =>
      let more1 := match top.isTruncated with
        | some t => toLowerStr t == "true"
        | none => more
      match top.contents with
      | [] => .error badResponse
      | cs => (contentsFold bucket object pre more1 cs q rs).map fun x => (more1, x.1, x.2)
    | none => .error badResponse
  else .error "Couldn't query bucket contents"

/-- The listing do-while loop against a backend scripted by request index: the
head of `script` answers the next request.  Running past the end of the script
is reported as an error.  `reqs` accumulates the query map of every request
issued. -/
def globLoopScript (bucket object pre : String) :
    List PageReply → Bool → Query → List String → List Query →
    Except String (List String × List Query)
  | [], _, _, _, _ => .error "script exhausted"
  | p :: rest, more, q, rs, reqs =>
    match globStep bucket object pre more q rs p with
    | .error e => .error e
    | .ok (m1, q1, rs1) =>
      if m1 then globLoopScript bucket object pre rest m1 q1 rs1 (reqs ++ [q])
      else .ok (rs1, reqs ++ [q])

/-- The listing do-while loop against a deterministic backend: `respond` maps
each request's query map to its reply, and the loop is cut off by fuel.  The
loop itself has no bound, so reaching `.error "out of fuel"` at every fuel
witnesses divergence. -/
def globLoopFuel (bucket object pre : String) (respond : Query → PageReply) :
    Nat → Bool → Query → List String → List Query →
    Except String (List String × List Query)
  | 0, _, _, _, _ => .error "out of fuel"
  | fuel + 1, more, q, rs, reqs =>
    let p := respond q
    match globStep bucket object pre more q rs p with
    | .error e => .error e
    | .ok (m1, q1, rs1) =>
      if m1 then globLoopFuel bucket object pre respond fuel m1 q1 rs1 (reqs ++ [q])
      else .ok (rs1, reqs ++ [q])

/-- Embedding of the entry of `S3Driver::glob` (s3.cpp:118-150): the path must
end in `/*`; the suffix is cut; bucket, object and prefix are derived and the
initial query set.  The outer `Option` is `none` when `getBucket` hits the
undefined `back()` on an empty path (path `"/*"`). -/
def glob (path : String) (script : List PageReply) :
    Option (Except String (List String × List Query)) :=
  if path.data.length < 2 ∨ path.data.drop (path.data.length - 2) ≠ "/*".data then
    some (.error ("Invalid glob path: " ++ path))
  else
    let p := String.mk (path.data.take (path.data.length - 2))
    match getBucket p, getObject p with
    | some bucket, some object =>
      let pre := if object = "" then "" else object ++ "/"
      let q0 : Query := ⟨if pre.length ≠ 0 then some pre else none, none⟩
      some (globLoopScript bucket object pre script false q0 [] [])
    | _, _ => none

/-- A scripted listing page with all `Key` nodes present: truncation flag and
the list of keys, rendered to a 200 reply. -/
def renderPage (trunc : Bool) (keys : List String) : PageReply :=
  ⟨200, some ⟨some (if trunc then "true" else "false"), keys.map (fun k => ⟨some k⟩)⟩⟩

/-- The qualifying keys of a page, in page order. -/
def pageQuals (pre : String) (keys : List String) : List String :=
  keys.filter (qualifies pre)

/-- The query-map update performed while processing one scripted page: when the
page is truncated, each qualifying key overwrites the marker in turn. -/
def updQ (object pre : String) (p : Bool × List String) (q : Query) : Query :=
  if p.1 then
    (pageQuals pre p.2).foldl (fun q k => { q with marker := some (markerFor object pre k) }) q
  else q

/-- The sequence of request query maps issued while consuming a scripted page
list starting from query `q`. -/
def reqsOf (object pre : String) : List (Bool × List String) → Query → List Query
  | [], _ => []
  | p :: ps, q => q :: reqsOf object pre ps (updQ object pre p q)

/-- Divergence of the listing loop: every fuel bound is exhausted. -/
def globDiverges (bucket object pre : String) (respond : Query → PageReply)
    (more : Bool) (q : Query) (rs : List String) (reqs : List Query) : Prop :=
  ∀ fuel, globLoopFuel bucket object pre respond fuel more q rs reqs = .error "out of fuel"

/-! ### Copy orchestration (arbiter.cpp: Arbiter::copy / copyFile, lines 211-300)

The driver registry, filesystem and HTTP transport are external collaborators;
`CopyEnv` scripts `resolve` and `getBinary`, and the orchestrator's writes are
returned as a list of actions instead of performed. -/

/-- Modelled from the spec: `isDirectory` lives in util code not under src/;
per the source comment (arbiter.cpp:219-220) a directory path is one that
ends with a slash. -/
def isDirectory (path : String) : Bool :=
  match path.data.getLast? with
  | some c => c == '/'
  | none => false

/-- Modelled from the spec: an Endpoint's root is "normalized to end with a
separator if non-empty" (spec section 3). -/
def normalizeRoot (r : String) : String :=
  if r = "" then r else if isDirectory r then r else r ++ "/"

/-- Modelled from the spec: `Endpoint::prefixedRoot` (endpoint code not under
src/) is the scheme re-attached to the normalized root. -/
def prefixedRoot (path : String) : String :=
  getType path ++ "://" ++ normalizeRoot (stripType path)

/-- Modelled from the spec: `stripPostfixing` (util code not under src/)
removes the trailing glob markers (`*` characters) from a path. -/
def stripPostfixing (path : String) : String :=
  String.mk ((path.data.reverse.dropWhile (fun c => c == '*')).reverse)

/-- Modelled from the spec: `getBasename` (util code not under src/) is the
portion of the scheme-stripped path after the last slash. -/
def getBasename (path : String) : String :=
  String.mk (((stripType path).data.reverse.takeWhile (fun c => c != '/')).reverse)

/-- The scripted collaborators of the copy orchestrator. -/
structure CopyEnv where
  resolve : String → List String
  getBinary : String → List Nat

/-- An observable write performed by a copy: a put of bytes to a destination
path, or a delegation to the same-driver specialized copy. -/
inductive CopyAction where
  | put : String → List Nat → CopyAction
  | driverCopy : String → String → CopyAction
deriving DecidableEq

/-- Embedding of `Arbiter::copyFile` (arbiter.cpp:269-300).  `mkdirp` touches
only the local filesystem collaborator and is not an observable write of data,
so it is not recorded. -/
def copyFile (env : CopyEnv) (file dst0 : String) : Except String (List CopyAction) :=
  if dst0 = "" then .error "Cannot copy to empty destination"
  else
    let dst := if isDirectory dst0 then dst0 ++ getBasename file else dst0
    if getType file = getType dst0 then
      .ok [CopyAction.driverCopy (stripType file) (stripType dst)]
    else
      .ok [CopyAction.put dst (env.getBinary file)]

/-- Embedding of `Arbiter::copy` (arbiter.cpp:211-267): empty-source and
empty-destination checks, globification of directory sources, the
directory-self-copy check against the normalized prefixed roots, and otherwise
one put per resolved path, re-rooted under the destination by stripping the
common prefix. -/
def copy (env : CopyEnv) (src dst : String) : Except String (List CopyAction) :=
  if src = "" then .error "Cannot copy from empty source"
  else if dst = "" then .error "Cannot copy to empty destination"
  else
    let srcToResolve := src ++ (if isDirectory src then "**" else "")
    if srcToResolve.data.getLast? ≠ some '*' then copyFile env src dst
    else
      let common := prefixedRoot (stripPostfixing src)
      if common = prefixedRoot dst then .error "Cannot copy directory to itself"
      else
        .ok ((env.resolve srcToResolve).map fun p =>
          CopyAction.put (normalizeRoot (stripType dst) ++ String.mk (p.data.drop common.length))
            (env.getBinary p))

/-- The scripted operation used to witness the retry-policy theorem: two 503
replies, then 200. -/
def scriptTwoFails : Nat → HttpResponse := fun i => ⟨if i < 2 then 503 else 200, []⟩

/-- A backend that answers every listing request with the same truncated page
holding the single qualifying (slash-free) key `k`. -/
def alwaysQualPage : Query → PageReply := fun _ => renderPage true ["k"]

/-- A backend serves only truncated pages each holding at least one qualifying
key, with every `Key` node present. -/
def servesQualifyingTruncatedOnly (pre : String) (respond : Query → PageReply) : Prop :=
  ∀ q, ∃ keys, respond q = renderPage true keys ∧ pageQuals pre keys ≠ []

/-- The per-page qualifying result entries, concatenated in response order. -/
def urlsOf (bucket pre : String) (pages : List (Bool × List String)) : List String :=
  (pages.map (fun p => (pageQuals pre p.2).map (keyUrl bucket))).flatten

/-- A copy environment with no resolvable paths and empty bodies. -/
def trivCopyEnv : CopyEnv := ⟨fun _ => [], fun _ => []⟩

/-- A backend that answers every listing request with the same truncated page
whose single key `a/b` is non-qualifying for the empty prefix. -/
def nonQualRespond : Query → PageReply := fun _ => renderPage true ["a/b"]

/-! ### Helper lemmas -/

theorem mk_data (s : String) : String.mk s.data = s := rfl

theorem data_ne_nil {s : String} (h : s ≠ "") : s.data ≠ [] :=
  fun hnil => h (String.ext (hnil.trans rfl))

theorem mem_of_getLastSome : ∀ {l : List Char} {a : Char}, l.getLast? = some a → a ∈ l
  | [c], a, h => by
    simp [List.getLast?] at h
    simp [h]
  | c :: d :: t, a, h => by
    rw [List.getLast?_cons_cons] at h
    exact List.mem_cons_of_mem _ (mem_of_getLastSome h)

theorem findCharFrom_zero_eq_none {c : Char} :
    ∀ {l : List Char}, c ∉ l → findCharFrom l c 0 = none
  | [], _ => rfl
  | x :: xs, h => by
    rw [List.mem_cons, not_or] at h
    rw [findCharFrom, if_neg (fun hx => h.1 hx.symm),
      findCharFrom_zero_eq_none h.2]
    rfl

/-! ### C1: base64 partial-group behaviour -/

/-- Claim C1: the claim asserts that a final group of 1 real byte encodes to 2 base64
characters plus 2 `=` pads and that decoding recovers the input for every
length mod 3.  In the source, `num = (pos - end == 1 ? 2 : 3)` is evaluated
when `pos == end` always holds, so a 1-byte final group emits 3 data
characters plus 1 pad: `encodeBase64 [65]` is `"QQA="`, which a standard
decoder reads back as the 2 bytes `[65, 0]`, not `[65]`.  Lengths congruent to
0 and 2 mod 3 do round-trip. -/
theorem c1_base64_partial_group_evaluation :
    encodeBase64 [65] = "QQA=".data ∧
    decodeBase64Std (encodeBase64 [65]) = some [65, 0] ∧
    decodeBase64Std (encodeBase64 [65]) ≠ some [65] ∧
    decodeBase64Std (encodeBase64 [65, 66]) = some [65, 66] ∧
    decodeBase64Std (encodeBase64 [65, 66, 67]) = some [65, 66, 67] :=
  ⟨rfl, rfl, by decide, rfl, rfl⟩

/-! ### C10: totality of the S3 path parse on non-empty paths -/

/-- Claim C10: `split` reads `back()` after optionally removing one trailing slash,
which is undefined behaviour exactly on the empty path (modelled by `none`);
on every non-empty path `split`, `getBucket` and `getObject` are defined, and
a path containing no `/` separator has an empty object. -/
theorem c10_parse_totality (path : String) (h : path ≠ "") :
    split "" = none ∧
    (split path).isSome ∧ (getBucket path).isSome ∧ (getObject path).isSome ∧
    ('/' ∉ path.data → getObject path = some "") := by
  have hd : path.data ≠ [] := data_ne_nil h
  refine ⟨rfl, ?_, ?_, ?_, ?_⟩
  · simp [split, hd]
  · simp [getBucket, split, hd]
  · simp [getObject, split, hd]
  · intro hmem
    have hlast : path.data.getLast? ≠ some '/' :=
      fun hl => hmem (mem_of_getLastSome hl)
    simp [getObject, split, hd, hlast, findCharFrom_zero_eq_none hmem]

theorem c10_parse_totality_witness :
    ("bucket" : String) ≠ "" ∧
    (split "" = none ∧
      (split "bucket").isSome ∧ (getBucket "bucket").isSome ∧
      (getObject "bucket").isSome ∧
      ('/' ∉ ("bucket" : String).data → getObject "bucket" = some "")) :=
  ⟨by decide, c10_parse_totality "bucket" (by decide)⟩

/-! ### C6: scheme extraction and stripping -/

theorem isPre_self_append : ∀ (p r : List Char), isPre p (p ++ r) = true
  | [], _ => rfl
  | c :: ps, r => by rw [List.cons_append, isPre, if_pos rfl]; exact isPre_self_append ps r

theorem isPre_two_slash_false (r : List Char) :
    ∀ (l : List Char), isPre ['/', '/'] l = false →
      isPre ['/', '/'] (l ++ ':' :: '/' :: '/' :: r) = false
  | [], _ => by simp [isPre]
  | [d], _ => by
    by_cases hd : ('/' : Char) = d <;> simp [isPre, hd]
  | d :: e :: t, h => by
    simp only [isPre, List.cons_append] at h ⊢
    split_ifs at h ⊢ <;> simp_all [isPre]

theorem not_isPre_delim_cons (c : Char) (t rest : List Char)
    (h : isPre [':', '/', '/'] (c :: t) = false) :
    isPre [':', '/', '/'] (c :: (t ++ ':' :: '/' :: '/' :: rest)) = false := by
  simp only [isPre] at h ⊢
  split_ifs at h ⊢ with hc
  · exact isPre_two_slash_false rest t h
  · rfl

theorem findSub_append_delim (rest : List Char) :
    ∀ (s : List Char), findSub [':', '/', '/'] s = none →
      findSub [':', '/', '/'] (s ++ ':' :: '/' :: '/' :: rest) = some s.length
  | [], _ => by
    have hc : isPre [':', '/', '/'] (':' :: '/' :: '/' :: rest) = true :=
      isPre_self_append [':', '/', '/'] rest
    show findSub [':', '/', '/'] (':' :: '/' :: '/' :: rest) = some 0
    rw [findSub, if_pos hc]
  | c :: t, h => by
    rw [findSub] at h
    by_cases hp : isPre [':', '/', '/'] (c :: t) = true
    · rw [if_pos hp] at h; cases h
    · rw [if_neg hp] at h
      have ht : findSub [':', '/', '/'] t = none := Option.map_eq_none'.mp h
      have hfalse : isPre [':', '/', '/'] (c :: t) = false := by
        revert hp; cases isPre [':', '/', '/'] (c :: t) <;> simp
      have hpre := not_isPre_delim_cons c t rest hfalse
      show findSub [':', '/', '/'] (c :: (t ++ ':' :: '/' :: '/' :: rest)) = some (t.length + 1)
      rw [findSub, if_neg (by simp [hpre]), findSub_append_delim rest t ht]
      rfl

theorem delim_data : delimiter.data = [':', '/', '/'] := rfl

/-- Claim C6: for every scheme `s` not containing `://` and every remainder, the
scheme of `s ++ "://" ++ rest` is `s` and the stripped path is `rest`; a path
containing no `://` has scheme `"file"` and strips to itself. -/
theorem c6_scheme_parse_roundtrip (s rest p : String)
    (hs : findSub delimiter.data s.data = none)
    (hp : findSub delimiter.data p.data = none) :
    getType (s ++ "://" ++ rest) = s ∧ stripType (s ++ "://" ++ rest) = rest ∧
    getType p = "file" ∧ stripType p = p := by
  have hdata : (s ++ "://" ++ rest).data = (s.data ++ [':', '/', '/']) ++ rest.data := by
    rw [String.data_append, String.data_append]
  have hfind : findSub delimiter.data (s.data ++ ([':', '/', '/'] ++ rest.data)) =
      some s.data.length := by
    rw [delim_data]
    exact findSub_append_delim rest.data s.data (delim_data ▸ hs)
  have hlen : delimiter.data.length = 3 := rfl
  refine ⟨?_, ?_, ?_, ?_⟩
  · simp only [getType, hdata, List.append_assoc, hfind]
    rw [List.take_left]
  · simp only [stripType, hdata, List.append_assoc, hfind, hlen]
    rw [List.drop_append 3]
    exact mk_data rest
  · simp only [getType, hp]
  · simp only [stripType, hp]

theorem c6_scheme_parse_roundtrip_witness :
    findSub delimiter.data ("s3" : String).data = none ∧
    findSub delimiter.data ("dir/file.txt" : String).data = none ∧
    (getType ("s3" ++ "://" ++ "bucket/obj") = "s3" ∧
      stripType ("s3" ++ "://" ++ "bucket/obj") = "bucket/obj" ∧
      getType "dir/file.txt" = "file" ∧ stripType "dir/file.txt" = "dir/file.txt") :=
  ⟨by decide, by decide,
    c6_scheme_parse_roundtrip "s3" "bucket/obj" "dir/file.txt" (by decide) (by decide)⟩

/-! ### C2: retry executor -/

theorem capSleep_eq_min (s : Nat) : capSleep s = min s 4096 := by
  unfold capSleep
  rcases le_or_lt s 4096 with h | h
  · rw [if_neg (by omega), Nat.min_eq_left h]
  · rw [if_pos h, Nat.min_eq_right (by omega)]

theorem capSleep_le (s : Nat) : capSleep (2 * s) ≤ 4096 := by
  rw [capSleep_eq_min]; exact min_le_right _ _

theorem capSleep_pow (j s : Nat) :
    min (2 ^ j * capSleep (2 * s)) 4096 = min (2 ^ (j + 1) * s) 4096 := by
  rw [capSleep_eq_min]
  rcases le_or_lt (2 * s) 4096 with h | h
  · rw [Nat.min_eq_left h]
    congr 1
    ring
  · rw [Nat.min_eq_right h.le]
    have h1 : (4096 : Nat) ≤ 2 ^ j * 4096 := by
      have := Nat.mul_le_mul_right 4096 (Nat.one_le_two_pow (n := j))
      simpa using this
    have h3 : (2 : Nat) ≤ 2 ^ (j + 1) := by
      have := Nat.pow_le_pow_right (show 1 ≤ 2 by norm_num) (show 1 ≤ j + 1 by omega)
      simpa using this
    have h2 : (4096 : Nat) ≤ 2 ^ (j + 1) * s := by
      calc (4096 : Nat) ≤ 2 * s := h.le
      _ ≤ 2 ^ (j + 1) * s := Nat.mul_le_mul_right s h3
    rw [Nat.min_eq_right h1, Nat.min_eq_right h2]

theorem get?_singleton {α : Type} {a x : α} {j : Nat}
    (h : ([a] : List α).get? j = some x) : j = 0 ∧ x = a := by
  cases j with
  | zero => cases h; exact ⟨rfl, rfl⟩
  | succ n => cases h

theorem sleeps_terminal {c sleep j x : Nat} (hs : sleep ≤ 4096)
    (hx : (if c = 200 then ([] : List Nat) else [sleep]).get? j = some x) :
    x = min (2 ^ j * sleep) 4096 := by
  by_cases hc : c = 200
  · rw [if_pos hc] at hx; simp at hx
  · rw [if_neg hc] at hx
    obtain ⟨rfl, rfl⟩ := get?_singleton hx
    rw [pow_zero, one_mul, Nat.min_eq_left hs]

theorem httpExecAux_script (f : Nat → HttpResponse) :
    ∀ (N i sleep fuel : Nat), (∀ k, k < N → (f (i + k)).code / 100 = 5) →
      (f (i + N)).code = 200 → N < fuel →
      (httpExecAux f fuel i sleep).1 = f (i + N) ∧
      (httpExecAux f fuel i sleep).2.1 = N + 1 := by
  intro N
  induction N with
  | zero =>
    intro i sleep fuel _ h200 hfuel
    rw [Nat.add_zero] at h200 ⊢
    have hcode : ¬(f i).code / 100 = 5 := by rw [h200]; omega
    match fuel, hfuel with
    | 1, _ => simp [httpExecAux]
    | m + 2, _ => simp [httpExecAux, hcode]
  | succ N ih =>
    intro i sleep fuel h5 h200 hfuel
    have h0 : (f i).code / 100 = 5 := by
      have := h5 0 (Nat.succ_pos N)
      rwa [Nat.add_zero] at this
    match fuel, hfuel with
    | m + 2, hf =>
      have hrec := ih (i + 1) (capSleep (2 * sleep)) (m + 1)
        (fun k hk => by
          have := h5 (k + 1) (by omega)
          rwa [show i + (k + 1) = i + 1 + k from by omega] at this)
        (by rwa [show i + 1 + N = i + (N + 1) from by omega])
        (by omega)
      simp only [httpExecAux, if_pos h0]
      refine ⟨?_, by rw [hrec.2]⟩
      rw [show i + (N + 1) = i + 1 + N from by omega]
      exact hrec.1

theorem httpExecAux_persistent (f : Nat → HttpResponse) :
    ∀ (fuel i sleep : Nat), 1 ≤ fuel → (∀ k, (f k).code / 100 = 5) →
      (httpExecAux f fuel i sleep).1 = f (i + (fuel - 1)) ∧
      (httpExecAux f fuel i sleep).2.1 = fuel := by
  intro fuel
  induction fuel with
  | zero => intro i sleep h _; exact absurd h (by omega)
  | succ m ih =>
    intro i sleep _ h5
    cases m with
    | zero => simp [httpExecAux]
    | succ m' =>
      have hrec := ih (i + 1) (capSleep (2 * sleep)) (by omega) h5
      simp only [httpExecAux, if_pos (h5 i)]
      refine ⟨?_, by rw [hrec.2]⟩
      rw [show i + (m' + 1 + 1 - 1) = i + 1 + (m' + 1 - 1) from by omega]
      exact hrec.1

theorem httpExecAux_first (f : Nat → HttpResponse) (fuel i sleep : Nat)
    (h : ¬(f i).code / 100 = 5) : (httpExecAux f fuel i sleep).2.1 = 1 := by
  match fuel with
  | 0 => rfl
  | 1 => rfl
  | m + 2 => simp [httpExecAux, h]

theorem httpExecAux_sleeps (f : Nat → HttpResponse) :
    ∀ (fuel i sleep : Nat), sleep ≤ 4096 →
      ∀ j x, ((httpExecAux f fuel i sleep).2.2).get? j = some x →
        x = min (2 ^ j * sleep) 4096 := by
  intro fuel
  induction fuel with
  | zero => intro i sleep hs j x hx; exact sleeps_terminal hs hx
  | succ m ih =>
    intro i sleep hs j x hx
    cases m with
    | zero => exact sleeps_terminal hs hx
    | succ m' =>
      by_cases h5 : (f i).code / 100 = 5
      · simp only [httpExecAux, if_pos h5] at hx
        cases j with
        | zero =>
          cases hx
          rw [pow_zero, one_mul, Nat.min_eq_left hs]
        | succ j' =>
          have := ih (i + 1) (capSleep (2 * sleep)) (capSleep_le sleep) j' x hx
          rw [this, capSleep_pow]
      · simp only [httpExecAux, if_neg h5] at hx
        exact sleeps_terminal hs hx

/-- Claim C2: with the attempt cap of 200, a script of N 5xx replies followed by a
200 returns that 200 response after exactly N+1 invocations; persistent 5xx
stops after exactly 200 invocations and returns the last response; a first
response outside 5xx terminates after one invocation; the sleeps performed
start at 1 ms, double after each failed attempt, are non-decreasing, and never
exceed 4096 ms. -/
theorem c2_httpExec_retry_policy (f : Nat → HttpResponse) :
    (∀ N, N + 1 ≤ httpAttempts → (∀ k, k < N → (f k).code / 100 = 5) →
      (f N).code = 200 →
      (httpExec f httpAttempts).1 = f N ∧ (httpExec f httpAttempts).2.1 = N + 1) ∧
    ((∀ k, (f k).code / 100 = 5) →
      (httpExec f httpAttempts).1 = f 199 ∧
      (httpExec f httpAttempts).2.1 = httpAttempts) ∧
    (¬(f 0).code / 100 = 5 → (httpExec f httpAttempts).2.1 = 1) ∧
    (∀ j x, ((httpExec f httpAttempts).2.2).get? j = some x → x = min (2 ^ j) 4096) ∧
    (((httpExec f httpAttempts).2.2).get? 0 = some 1 ∨ (httpExec f httpAttempts).2.2 = []) ∧
    List.Chain' (· ≤ ·) (httpExec f httpAttempts).2.2 ∧
    (∀ x ∈ (httpExec f httpAttempts).2.2, x ≤ 4096) := by
  have hget : ∀ j x, ((httpExec f httpAttempts).2.2).get? j = some x →
      x = min (2 ^ j) 4096 := by
    intro j x hx
    have := httpExecAux_sleeps f 200 0 1 (by omega) j x hx
    rwa [mul_one] at this
  refine ⟨?_, ?_, ?_, hget, ?_, ?_, ?_⟩
  · intro N hN h5 h200
    have hN2 : N + 1 ≤ 200 := hN
    have := httpExecAux_script f N 0 1 200
      (fun k hk => by rw [Nat.zero_add]; exact h5 k hk)
      (by rwa [Nat.zero_add]) (by omega)
    rw [Nat.zero_add] at this
    exact this
  · intro h5
    have := httpExecAux_persistent f 200 0 1 (by omega) h5
    rw [show (0 + (200 - 1) : Nat) = 199 from rfl] at this
    exact this
  · intro h
    exact httpExecAux_first f 200 0 1 h
  · cases hl : (httpExec f httpAttempts).2.2 with
    | nil => exact Or.inr rfl
    | cons a t =>
      left
      have ha : a = min (2 ^ 0) 4096 := hget 0 a (by rw [hl]; rfl)
      show some a = some 1
      rw [ha]
      decide
  · rw [List.chain'_iff_get]
    intro i hi
    set l := (httpExec f httpAttempts).2.2 with hldef
    have h1 := hget i (l.get ⟨i, by omega⟩) (List.get?_eq_get _)
    have h2 := hget (i + 1) (l.get ⟨i + 1, by omega⟩) (List.get?_eq_get _)
    rw [h1, h2]
    exact min_le_min (Nat.pow_le_pow_right (by norm_num) (by omega)) le_rfl
  · intro x hx
    obtain ⟨n, hn⟩ := List.mem_iff_get?.mp hx
    rw [hget n x hn]
    exact min_le_right _ _

theorem c2_httpExec_retry_policy_witness :
    (2 + 1 ≤ httpAttempts) ∧
    ((httpExec scriptTwoFails httpAttempts).1 = scriptTwoFails 2 ∧
      (httpExec scriptTwoFails httpAttempts).2.1 = 2 + 1) :=
  ⟨by decide,
    (c2_httpExec_retry_policy scriptTwoFails).1 2 (by decide)
      (fun k hk => by interval_cases k <;> rfl) rfl⟩

/-! ### C3: canonical string and emitted headers -/

/-- Claim C3: the string signed is `METHOD\n\n<content-type>\n<date>\n/<bucket>/<object>`
with empty content-type for GET and `application/octet-stream` for PUT; GET
emits exactly the Date and Authorization headers, and PUT additionally the
Content-Type header plus the header lines that clear Transfer-Encoding and
Expect. -/
theorem c3_signing_string_and_headers (sign : String → List Nat)
    (access httpDate bucket object : String) :
    getStringToSign "GET" (bucket ++ "/" ++ object) httpDate defaultContentType =
      "GET\n\n\n" ++ httpDate ++ "\n/" ++ bucket ++ "/" ++ object ∧
    getStringToSign "PUT" (bucket ++ "/" ++ object) httpDate "application/octet-stream" =
      "PUT\n\napplication/octet-stream\n" ++ httpDate ++ "\n/" ++ bucket ++ "/" ++ object ∧
    httpGetHeaders sign access httpDate (bucket ++ "/" ++ object) =
      ["Date: " ++ httpDate,
       "Authorization: AWS " ++ access ++ ":" ++
         String.mk (encodeBase64 (sign
           ("GET\n\n\n" ++ httpDate ++ "\n/" ++ bucket ++ "/" ++ object)))] ∧
    httpPutHeaders sign access httpDate (bucket ++ "/" ++ object) =
      ["Content-Type: application/octet-stream",
       "Date: " ++ httpDate,
       "Authorization: AWS " ++ access ++ ":" ++
         String.mk (encodeBase64 (sign
           ("PUT\n\napplication/octet-stream\n" ++ httpDate ++ "\n/" ++ bucket ++ "/" ++ object))),
       "Transfer-Encoding:", "Expect:"] := by
  have e1 : ("GET\n\n\n" : String) = "GET" ++ "\n" ++ "\n" ++ "" ++ "\n" := rfl
  have e2 : ("\n/" : String) = "\n" ++ "/" := rfl
  have e3 : ("PUT\n\napplication/octet-stream\n" : String) =
      "PUT" ++ "\n" ++ "\n" ++ "application/octet-stream" ++ "\n" := rfl
  have h1 : getStringToSign "GET" (bucket ++ "/" ++ object) httpDate defaultContentType =
      "GET\n\n\n" ++ httpDate ++ "\n/" ++ bucket ++ "/" ++ object := by
    rw [e1, e2]
    simp only [getStringToSign, defaultContentType, String.append_assoc]
  have h2 : getStringToSign "PUT" (bucket ++ "/" ++ object) httpDate
      "application/octet-stream" =
      "PUT\n\napplication/octet-stream\n" ++ httpDate ++ "\n/" ++ bucket ++ "/" ++ object := by
    rw [e3, e2]
    simp only [getStringToSign, String.append_assoc]
  refine ⟨h1, h2, ?_, ?_⟩
  · simp only [httpGetHeaders, getSignedEncodedString, h1]
  · simp only [httpPutHeaders, getSignedEncodedString, h2]

/-! ### C4 / C5 / C7: listing pagination -/

theorem contentsFold_keys (bucket object pre : String) (more : Bool) :
    ∀ (keys : List String) (q : Query) (rs : List String),
      (more = true → ∀ k ∈ keys, qualifies pre k = true → pre.length ≤ k.length) →
      contentsFold bucket object pre more (keys.map (fun k => ⟨some k⟩)) q rs =
        .ok ((pageQuals pre keys).foldl
               (fun q k => if more then { q with marker := some (markerFor object pre k) }
                           else q) q,
             rs ++ (pageQuals pre keys).map (keyUrl bucket)) := by
  intro keys
  induction keys with
  | nil => intro q rs _; simp [contentsFold, pageQuals]
  | cons k ks ih =>
    intro q rs hok
    have hok' : more = true → ∀ k' ∈ ks, qualifies pre k' = true → pre.length ≤ k'.length :=
      fun hm k' hk' => hok hm k' (List.mem_cons_of_mem _ hk')
    simp only [List.map_cons, contentsFold]
    by_cases hq : qualifies pre k
    · rw [if_pos hq]
      cases more with
      | false =>
        rw [if_neg (by simp), ih q (rs ++ [keyUrl bucket k]) hok']
        simp [pageQuals, List.filter_cons, hq, List.append_assoc]
      | true =>
        have hb : pre.length ≤ k.length := hok rfl k (List.mem_cons_self _ _) hq
        rw [if_pos rfl, if_pos hb,
          ih { q with marker := some (markerFor object pre k) }
            (rs ++ [keyUrl bucket k]) hok']
        simp [pageQuals, List.filter_cons, hq, List.append_assoc]
    · have hq' : qualifies pre k = false := by
        revert hq; cases qualifies pre k <;> simp
      rw [if_neg hq, ih q rs hok']
      simp [pageQuals, List.filter_cons, hq']

theorem globStep_parsed (bucket object pre : String) (more : Bool) (q : Query)
    (rs : List String) (st k0 : String) (ks : List String)
    (hok : (toLowerStr st == "true") = true →
      ∀ k ∈ k0 :: ks, qualifies pre k = true → pre.length ≤ k.length) :
    globStep bucket object pre more q rs
        ⟨200, some ⟨some st, (k0 :: ks).map (fun k => ⟨some k⟩)⟩⟩ =
      .ok ((toLowerStr st == "true"),
           (pageQuals pre (k0 :: ks)).foldl
             (fun q k => if (toLowerStr st == "true") then
                 { q with marker := some (markerFor object pre k) } else q) q,
           rs ++ (pageQuals pre (k0 :: ks)).map (keyUrl bucket)) := by
  rw [show globStep bucket object pre more q rs
      ⟨200, some ⟨some st, (k0 :: ks).map (fun k => ⟨some k⟩)⟩⟩ =
      (contentsFold bucket object pre (toLowerStr st == "true")
        ((k0 :: ks).map (fun k => ⟨some k⟩)) q rs).map
        (fun x => ((toLowerStr st == "true"), x.1, x.2)) from rfl]
  rw [contentsFold_keys bucket object pre (toLowerStr st == "true") (k0 :: ks) q rs hok]
  rfl

theorem globStep_render (bucket object pre : String) (more : Bool) (q : Query)
    (rs : List String) (trunc : Bool) (k0 : String) (ks : List String)
    (hok : trunc = true → ∀ k ∈ k0 :: ks, qualifies pre k = true → pre.length ≤ k.length) :
    globStep bucket object pre more q rs (renderPage trunc (k0 :: ks)) =
      .ok (trunc,
           (pageQuals pre (k0 :: ks)).foldl
             (fun q k => if trunc then { q with marker := some (markerFor object pre k) }
                         else q) q,
           rs ++ (pageQuals pre (k0 :: ks)).map (keyUrl bucket)) := by
  have t1 : (toLowerStr "true" == "true") = true := by decide
  have t2 : (toLowerStr "false" == "true") = false := by decide
  cases trunc
  · have hvac : (toLowerStr "false" == "true") = true →
        ∀ k ∈ k0 :: ks, qualifies pre k = true → pre.length ≤ k.length := by
      rw [t2]; intro h; cases h
    rw [show renderPage false (k0 :: ks) =
        ⟨200, some ⟨some "false", (k0 :: ks).map (fun k => ⟨some k⟩)⟩⟩ from rfl,
      globStep_parsed bucket object pre more q rs "false" k0 ks hvac, t2]
  · have hok' : (toLowerStr "true" == "true") = true →
        ∀ k ∈ k0 :: ks, qualifies pre k = true → pre.length ≤ k.length :=
      fun _ => hok rfl
    rw [show renderPage true (k0 :: ks) =
        ⟨200, some ⟨some "true", (k0 :: ks).map (fun k => ⟨some k⟩)⟩⟩ from rfl,
      globStep_parsed bucket object pre more q rs "true" k0 ks hok', t1]

theorem globLoopScript_pages (bucket object pre : String) :
    ∀ (pages : List (Bool × List String)) (q : Query) (rs : List String)
      (reqs : List Query) (more : Bool),
      pages ≠ [] →
      (∀ p ∈ pages, p.2 ≠ []) →
      (∀ i p, pages.get? i = some p → (p.1 = true ↔ i + 1 < pages.length)) →
      (∀ p ∈ pages, p.1 = true →
        ∀ k ∈ p.2, qualifies pre k = true → pre.length ≤ k.length) →
      globLoopScript bucket object pre (pages.map fun pg => renderPage pg.1 pg.2)
          more q rs reqs =
        .ok (rs ++ urlsOf bucket pre pages, reqs ++ reqsOf object pre pages q) := by
  intro pages
  induction pages with
  | nil => intro q rs reqs more hne _ _ _; exact absurd rfl hne
  | cons pg ps ih =>
    obtain ⟨pb, pks⟩ := pg
    intro q rs reqs more _ hkeys htr hconf
    obtain ⟨k0, ks, rfl⟩ : ∃ k0 ks, pks = k0 :: ks := by
      cases hp2 : pks with
      | nil => exact absurd hp2 (hkeys (pb, pks) (List.mem_cons_self _ _))
      | cons a b => exact ⟨a, b, rfl⟩
    cases ps with
    | nil =>
      have hfalse : pb = false := by
        cases hb : pb
        · rfl
        · exact absurd ((htr 0 (pb, k0 :: ks) rfl).mp hb) (by simp)
      subst hfalse
      simp only [List.map_cons, List.map_nil, globLoopScript]
      rw [globStep_render bucket object pre more q rs false k0 ks
        (by intro h; cases h)]
      simp [urlsOf, reqsOf, updQ]
    | cons pg2 ps2 =>
      have htrue : pb = true := by
        cases hb : pb
        · exact absurd ((htr 0 (pb, k0 :: ks) rfl).mpr
            (by simp only [List.length_cons]; omega)) (by rw [hb]; simp)
        · rfl
      subst htrue
      have hrec := ih (updQ object pre (true, k0 :: ks) q)
        (rs ++ (pageQuals pre (k0 :: ks)).map (keyUrl bucket)) (reqs ++ [q]) true
        (by simp)
        (fun p hp => hkeys p (List.mem_cons_of_mem _ hp))
        (fun i p hp => by
          have h2 := htr (i + 1) p hp
          rw [h2]
          simp only [List.length_cons]
          omega)
        (fun p hp => hconf p (List.mem_cons_of_mem _ hp))
      have hupd : (pageQuals pre (k0 :: ks)).foldl
          (fun q k => if true then { q with marker := some (markerFor object pre k) }
                      else q) q = updQ object pre (true, k0 :: ks) q := by
        simp [updQ]
      simp only [List.map_cons, globLoopScript]
      rw [globStep_render bucket object pre more q rs true k0 ks
        (fun _ => hconf (true, k0 :: ks) (List.mem_cons_self _ _) rfl), hupd]
      show globLoopScript bucket object pre
          (List.map (fun pg => renderPage pg.1 pg.2) (pg2 :: ps2)) true
          (updQ object pre (true, k0 :: ks) q)
          (rs ++ List.map (keyUrl bucket) (pageQuals pre (k0 :: ks))) (reqs ++ [q]) = _
      rw [hrec]
      simp [urlsOf, reqsOf, List.append_assoc]

theorem reqsOf_get (object pre : String) :
    ∀ (pages : List (Bool × List String)) (q : Query) (i : Nat)
      (p : Bool × List String),
      pages.get? i = some p → i + 1 < pages.length →
      ∃ q', (reqsOf object pre pages q).get? (i + 1) = some (updQ object pre p q') := by
  intro pages
  induction pages with
  | nil => intro q i p h _; cases h
  | cons pg ps ih =>
    intro q i p hget hlen
    cases i with
    | zero =>
      have hp : pg = p := by
        have := hget
        simp at this
        exact this
      subst hp
      cases ps with
      | nil => simp at hlen
      | cons a b =>
        refine ⟨q, ?_⟩
        simp [reqsOf]
    | succ j =>
      have hget' : ps.get? j = some p := hget
      have hlen' : j + 1 < ps.length := by
        simp [List.length_cons] at hlen
        omega
      obtain ⟨q', hq'⟩ := ih (updQ object pre pg q) j p hget' hlen'
      exact ⟨q', by simpa [reqsOf] using hq'⟩

theorem foldl_marker (object pre : String) :
    ∀ (l : List String) (q : Query) (k : String), l.getLast? = some k →
      (l.foldl (fun q k' => { q with marker := some (markerFor object pre k') }) q).marker =
        some (markerFor object pre k) := by
  intro l
  induction l with
  | nil => intro q k h; cases h
  | cons a t ih =>
    intro q k h
    cases t with
    | nil =>
      have : a = k := by simpa [List.getLast?] using h
      subst this
      rfl
    | cons b t2 =>
      rw [List.getLast?_cons_cons] at h
      rw [List.foldl_cons]
      exact ih _ k h

theorem updQ_marker (object pre : String) (p : Bool × List String) (q : Query) (k : String)
    (ht : p.1 = true) (hk : (pageQuals pre p.2).getLast? = some k) :
    (updQ object pre p q).marker = some (markerFor object pre k) := by
  rw [updQ, ht, if_pos rfl]
  exact foldl_marker object pre _ q k hk

/-- Claim C4: for every scripted multi-page listing (each page's Contents non-empty
with all keys present, every page but the last truncated), the loop succeeds
with the qualifying keys of each page appended in response order, and whenever
a truncated page has a last qualifying key, the next request's marker is that
key reconstructed relative to the prefix.  The hypothesis `hconf` is the S3
listing contract that keys of a prefix-filtered page extend the prefix: a
qualifying key of a truncated page is at least as long as the prefix, so the
`key.substr(prefix.size())` in the marker assignment (s3.cpp:190) does not
throw. -/
theorem c4_pagination_order_and_marker (bucket object pre : String) (q0 : Query)
    (pages : List (Bool × List String))
    (hne : pages ≠ []) (hkeys : ∀ p ∈ pages, p.2 ≠ [])
    (htr : ∀ i p, pages.get? i = some p → (p.1 = true ↔ i + 1 < pages.length))
    (hconf : ∀ p ∈ pages, p.1 = true →
      ∀ k ∈ p.2, qualifies pre k = true → pre.length ≤ k.length) :
    globLoopScript bucket object pre (pages.map fun pg => renderPage pg.1 pg.2)
        false q0 [] [] =
      .ok (urlsOf bucket pre pages, reqsOf object pre pages q0) ∧
    (∀ i p k, pages.get? i = some p → (pageQuals pre p.2).getLast? = some k →
      i + 1 < pages.length →
      ((reqsOf object pre pages q0).get? (i + 1)).map Query.marker =
        some (some (markerFor object pre k))) := by
  constructor
  · have h := globLoopScript_pages bucket object pre pages q0 [] [] false hne hkeys htr hconf
    simpa using h
  · intro i p k hget hlast hlen
    obtain ⟨q', hq'⟩ := reqsOf_get object pre pages q0 i p hget hlen
    rw [hq', Option.map_some']
    rw [updQ_marker object pre p q' k ((htr i p hget).mpr hlen) hlast]

theorem c4_pagination_order_and_marker_witness :
    globLoopScript "b" "d" "d/"
        [renderPage true ["d/a", "d/b"], renderPage false ["d/c"]]
        false ⟨some "d/", none⟩ [] [] =
      .ok (["s3://b/d/a", "s3://b/d/b", "s3://b/d/c"],
           [⟨some "d/", none⟩, ⟨some "d/", some "d/b"⟩]) ∧
    ((reqsOf "d" "d/" [(true, ["d/a", "d/b"]), (false, ["d/c"])]
        ⟨some "d/", none⟩).get? 1).map Query.marker = some (some "d/b") := by
  have h := c4_pagination_order_and_marker "b" "d" "d/" ⟨some "d/", none⟩
    [(true, ["d/a", "d/b"]), (false, ["d/c"])] (by decide) (by decide)
    (by
      intro i p hp
      cases i with
      | zero => cases hp; decide
      | succ j =>
        cases j with
        | zero => cases hp; decide
        | succ j2 => simp at hp)
    (by decide)
  exact ⟨h.1, h.2 0 (true, ["d/a", "d/b"]) "d/b" rfl (by decide) (by decide)⟩

/-- Claim C5: a key returned by a listing page appears in the result if and only if
the key has no path separator at or after the prefix length: the single-page
run returns exactly the filtered keys, and membership of a key's result entry
is equivalent to the key qualifying. -/
theorem c5_single_level_filtering (bucket object pre : String) (q0 : Query)
    (keys : List String) (k : String) (hne : keys ≠ []) (hk : k ∈ keys) :
    globLoopScript bucket object pre [renderPage false keys] false q0 [] [] =
      .ok ((pageQuals pre keys).map (keyUrl bucket), [q0]) ∧
    (keyUrl bucket k ∈ (pageQuals pre keys).map (keyUrl bucket) ↔
      qualifies pre k = true) := by
  constructor
  · have h := globLoopScript_pages bucket object pre [(false, keys)] q0 [] [] false
      (by simp)
      (by
        intro p hp
        rw [List.mem_singleton] at hp
        subst hp
        exact hne)
      (by
        intro i p hp
        cases i with
        | zero =>
          cases hp
          simp
        | succ j => simp at hp)
      (by
        intro p hp
        rw [List.mem_singleton] at hp
        subst hp
        intro h
        cases h)
    simpa [urlsOf, reqsOf] using h
  · have hinj : Function.Injective (keyUrl bucket) := by
      intro a b hab
      have hd := congrArg String.data hab
      simp only [keyUrl, String.data_append, List.append_assoc,
        List.append_cancel_left_eq] at hd
      exact String.ext hd
    rw [List.mem_map_of_injective hinj, pageQuals, List.mem_filter]
    constructor
    · rintro ⟨_, hq⟩; exact hq
    · intro hq; exact ⟨hk, hq⟩

theorem c5_single_level_filtering_witness :
    (["dir/a", "dir/sub/b"] : List String) ≠ [] ∧
    (globLoopScript "bucket" "dir" "dir/"
        [renderPage false ["dir/a", "dir/sub/b"]] false ⟨some "dir/", none⟩ [] [] =
      .ok (["s3://bucket/dir/a"], [⟨some "dir/", none⟩]) ∧
    ("s3://bucket/dir/a" ∈ (["s3://bucket/dir/a"] : List String) ↔
      qualifies "dir/" "dir/a" = true)) :=
  ⟨by decide,
    c5_single_level_filtering "bucket" "dir" "dir/" ⟨some "dir/", none⟩
      ["dir/a", "dir/sub/b"] "dir/a" (by decide) (by decide)⟩

/-- Claim C7: a 200 listing response whose parse has a `ListBucketResult` node but a
null `Contents` chain makes the loop throw the malformed-response error rather
than return an empty or partial result, from any loop state; in particular a
well-formed glob over such a script errors. -/
theorem c7_missing_contents_is_error (bucket object pre : String) (more : Bool)
    (q : Query) (rs : List String) (reqs : List Query) (t : Option String)
    (rest : List PageReply) :
    globLoopScript bucket object pre (⟨200, some ⟨t, []⟩⟩ :: rest) more q rs reqs =
      .error badResponse ∧
    glob "bucket/dir/*" [⟨200, some ⟨t, []⟩⟩] = some (.error badResponse) := by
  constructor
  · cases t <;> simp [globLoopScript, globStep]
  · cases t <;> rfl

/-! ### C9: pagination termination -/

/-- Claim C9 (amended): when the loop reaches a query whose (deterministic) response
is a truncated page whose keys are all present and all non-qualifying, the
iteration leaves the query and results unchanged — the identical request is
re-issued — and the loop never terminates.  (The converse direction of the
original claim is false: see the counterexample, where every page is truncated
with a qualifying key and the loop still diverges.) -/
theorem c9_marker_unchanged_diverges (bucket object pre : String)
    (respond : Query → PageReply) (q : Query) (keys : List String)
    (hresp : respond q = renderPage true keys)
    (hne : keys ≠ []) (hnq : ∀ k ∈ keys, qualifies pre k = false) :
    (∀ more rs, globStep bucket object pre more q rs (respond q) = .ok (true, q, rs)) ∧
    (∀ more rs reqs, globDiverges bucket object pre respond more q rs reqs) := by
  obtain ⟨k0, ks, rfl⟩ : ∃ k0 ks, keys = k0 :: ks := by
    cases keys with
    | nil => exact absurd rfl hne
    | cons a b => exact ⟨a, b, rfl⟩
  have hquals : pageQuals pre (k0 :: ks) = [] := by
    rw [pageQuals, List.filter_eq_nil_iff]
    intro a ha
    rw [hnq a ha]
    simp
  have hstep : ∀ more rs,
      globStep bucket object pre more q rs (respond q) = .ok (true, q, rs) := by
    intro more rs
    rw [hresp,
      globStep_render bucket object pre more q rs true k0 ks
        (fun _ k hk hq => by rw [hnq k hk] at hq; cases hq),
      hquals]
    simp
  refine ⟨hstep, ?_⟩
  intro more rs reqs fuel
  induction fuel generalizing more reqs with
  | zero => rfl
  | succ n ih =>
    simp only [globLoopFuel]
    rw [hstep more rs]
    show globLoopFuel bucket object pre respond n true q rs (reqs ++ [q]) =
      .error "out of fuel"
    exact ih true (reqs ++ [q])

theorem c9_marker_unchanged_diverges_witness :
    globStep "b" "" "" false ⟨none, none⟩ [] (nonQualRespond ⟨none, none⟩) =
      .ok (true, ⟨none, none⟩, []) ∧
    globDiverges "b" "" "" nonQualRespond false ⟨none, none⟩ [] [] :=
  ⟨(c9_marker_unchanged_diverges "b" "" "" nonQualRespond ⟨none, none⟩ ["a/b"]
      rfl (by decide) (by decide)).1 false [],
   (c9_marker_unchanged_diverges "b" "" "" nonQualRespond ⟨none, none⟩ ["a/b"]
      rfl (by decide) (by decide)).2 false [] []⟩

/-- Claim C9 (counterexample to the claim as stated): a deterministic backend whose
every response is a truncated page containing a qualifying key — so every page
of the encountered sequence reports IsTruncated=true and has at least one
qualifying key — yet the pagination loop never terminates, refuting
"terminates for exactly those page sequences in which every truncated page
contains at least one qualifying key". -/
theorem c9_counterexample_exactness :
    servesQualifyingTruncatedOnly "" alwaysQualPage ∧
    globDiverges "b" "" "" alwaysQualPage false ⟨none, none⟩ [] [] := by
  constructor
  · intro q
    exact ⟨["k"], rfl, by decide⟩
  · have key : ∀ (fuel : Nat) (more : Bool) (q : Query) (rs : List String)
        (reqs : List Query),
        globLoopFuel "b" "" "" alwaysQualPage fuel more q rs reqs =
          .error "out of fuel" := by
      intro fuel
      induction fuel with
      | zero => intro more q rs reqs; rfl
      | succ n ih =>
        intro more q rs reqs
        have hq1 : pageQuals "" ["k"] = ["k"] := by decide
        have hstep : globStep "b" "" "" more q rs (alwaysQualPage q) =
            .ok (true, { q with marker := some "k" }, rs ++ ["s3://b/k"]) := by
          rw [show alwaysQualPage q = renderPage true ["k"] from rfl,
            globStep_render "b" "" "" more q rs true "k" []
              (fun _ k _ _ => Nat.zero_le _),
            hq1]
          simp [show markerFor "" "" "k" = "k" from rfl,
            show keyUrl "b" "k" = "s3://b/k" from rfl]
        simp only [globLoopFuel]
        rw [hstep]
        show globLoopFuel "b" "" "" alwaysQualPage n true
            { q with marker := some "k" } (rs ++ ["s3://b/k"]) (reqs ++ [q]) =
          .error "out of fuel"
        exact ih true _ _ _
    intro fuel
    exact key fuel false ⟨none, none⟩ [] []

/-! ### C8: copy argument validation -/

/-- Claim C8: copy raises the invalid-argument errors for an empty source, an empty
destination, and a directory source whose normalized prefixed root equals the
destination's — in each case returning the error with no copy actions
performed, for every environment. -/
theorem c8_copy_invalid_argument (env : CopyEnv) (src dst : String)
    (hsrc : src ≠ "") (hdst : dst ≠ "") (hdir : isDirectory src = true)
    (hroot : prefixedRoot (stripPostfixing src) = prefixedRoot dst) :
    copy env "" dst = .error "Cannot copy from empty source" ∧
    copy env src "" = .error "Cannot copy to empty destination" ∧
    copy env src dst = .error "Cannot copy directory to itself" := by
  refine ⟨by simp [copy], by simp [copy, hsrc], ?_⟩
  have hstar : (src ++ (if isDirectory src then "**" else "")).data.getLast? =
      some '*' := by
    rw [hdir, if_pos rfl, String.data_append,
      List.getLast?_append_of_ne_nil _ (by decide)]
    rfl
  simp only [copy, if_neg hsrc, if_neg hdst]
  rw [if_neg (by simp only [ne_eq, hstar]; simp), if_pos hroot]

theorem c8_copy_invalid_argument_witness :
    ("s3://b/d/" : String) ≠ "" ∧
    (copy trivCopyEnv "" "s3://b/d/" = .error "Cannot copy from empty source" ∧
     copy trivCopyEnv "s3://b/d/" "" = .error "Cannot copy to empty destination" ∧
     copy trivCopyEnv "s3://b/d/" "s3://b/d/" =
       .error "Cannot copy directory to itself") :=
  ⟨by decide,
    c8_copy_invalid_argument trivCopyEnv "s3://b/d/" "s3://b/d/"
      (by decide) (by decide) (by decide) rfl⟩

end ArbiterSpec
